import Mathlib

/-!
Shallow embedding of `flx_module/funcx_federated.py`.

The numeric domain models numpy floating-point values over exact rationals
extended with `nan` and signed infinities, because `get_edge_weights` divides
a numpy array by a possibly-zero total: numpy emits a warning and produces
`nan` / `inf` entries instead of raising.  Signed zero and rounding are not
modelled; every claim under study is exact-arithmetic.

The orchestration function `federated_learning` is embedded as a pure
function over an explicit configuration, an external remote-training
behaviour `run : round -> endpoint -> current weights -> result or error`
(the funcX task for `training_function`; its payload also carries the
constant `num_samples`, `epochs` and the architecture JSON, which never
change and are absorbed into the behaviour), and the current global-model
weights.  It returns the final weights (or the first uncaught exception) and
a trace of the externally observable effects: which jobs were submitted to
which endpoint in which round, which weight values were committed via
`set_weights`, and how many times the evaluation callback fired.
-/

/-- A numpy floating-point value: a finite rational, `nan`, or a signed
infinity. -/
inductive NFloat where
  | num (q : ℚ)
  | nan
  | inf
  | neginf
deriving DecidableEq, Repr

/-- IEEE-style addition on `NFloat`: `nan` absorbs, opposite infinities give
`nan`. -/
def nadd : NFloat → NFloat → NFloat
  | .nan, _ => .nan
  | _, .nan => .nan
  | .inf, .neginf => .nan
  | .neginf, .inf => .nan
  | .inf, _ => .inf
  | _, .inf => .inf
  | .neginf, _ => .neginf
  | _, .neginf => .neginf
  | .num a, .num b => .num (a + b)

/-- IEEE-style multiplication on `NFloat`: `nan` absorbs, `inf * 0 = nan`,
otherwise signs multiply. -/
def nmul : NFloat → NFloat → NFloat
  | .nan, _ => .nan
  | _, .nan => .nan
  | .num a, .num b => .num (a * b)
  | .inf, .inf => .inf
  | .inf, .neginf => .neginf
  | .neginf, .inf => .neginf
  | .neginf, .neginf => .inf
  | .inf, .num b => if b = 0 then .nan else if 0 < b then .inf else .neginf
  | .num a, .inf => if a = 0 then .nan else if 0 < a then .inf else .neginf
  | .neginf, .num b => if b = 0 then .nan else if 0 < b then .neginf else .inf
  | .num a, .neginf => if a = 0 then .nan else if 0 < a then .neginf else .inf

/-- IEEE-style (numpy true_divide) division on `NFloat`: `0/0 = nan`,
`x/0 = ±inf` for finite nonzero `x`, `inf/inf = nan`, finite over infinite
is `0`.  Signed zero is not modelled, so the zero divisor counts as
non-negative. -/
def ndivF : NFloat → NFloat → NFloat
  | .nan, _ => .nan
  | _, .nan => .nan
  | .num a, .num b =>
      if b = 0 then (if a = 0 then .nan else if 0 < a then .inf else .neginf)
      else .num (a / b)
  | .inf, .inf => .nan
  | .inf, .neginf => .nan
  | .neginf, .inf => .nan
  | .neginf, .neginf => .nan
  | .inf, .num b => if 0 ≤ b then .inf else .neginf
  | .neginf, .num b => if 0 ≤ b then .neginf else .inf
  | .num _, .inf => .num 0
  | .num _, .neginf => .num 0

/-- Sum of a list of `NFloat` values, as numpy sums an array (the fold
direction is immaterial for the facts proved here). -/
def nsumL (l : List NFloat) : NFloat :=
  l.foldr nadd (.num 0)

/-- `sample_counts` is a numpy integer array; `total = sum(sample_counts)`
and `fractions = sample_counts / total` is elementwise numpy true division
(no validation of any kind: a zero total produces `nan` and infinities, a
negative count a negative fraction). Source: `get_edge_weights`, lines
10-26. -/
def get_edge_weights (sample_counts : List ℚ) : List NFloat :=
  let total := sample_counts.sum
  sample_counts.map (fun c => ndivF (.num c) (.num total))

/-- The value returned by one remote `training_function` task: the updated
model weights and the number of samples trained on. -/
structure TrainResult where
  model_weights : List NFloat
  samples_count : ℚ
deriving DecidableEq, Repr

/-- The Python exceptions `federated_learning` can surface: an exception
raised by a remote task (seen at `t.result()`), the `raise Exception` for an
unrecognised `federated_mode`, and numpy's `ZeroDivisionError` from
`np.average` when the weights sum to zero. -/
inductive FLError where
  | remote (msg : String)
  | unknownMode (mode : String)
  | zeroDivision
deriving DecidableEq, Repr

/-- Column `j` of a list of rows (all rows have equal length in every use,
matching the rectangular numpy arrays of the source; the default is never
reached then). -/
def colAt (rows : List (List NFloat)) (j : Nat) : List NFloat :=
  rows.map (fun r => r.getD j (.num 0))

/-- `np.mean(rows, axis=0)`: the elementwise arithmetic mean of the rows
(each row one endpoint's parameter vector). Source: line 209. -/
def npMean (rows : List (List NFloat)) : List NFloat :=
  (List.range (rows.headD []).length).map
    (fun j => ndivF (nsumL (colAt rows j)) (.num rows.length))

/-- Dot product of a weight vector with a column. -/
def dotNF (ws col : List NFloat) : NFloat :=
  nsumL (List.zipWith nmul ws col)

/-- `np.average(rows, weights, axis=0)`: raises `ZeroDivisionError` when the
weights sum to zero, otherwise returns the elementwise weighted sum divided
by the sum of the weights. Source: line 217. -/
def npAverage (rows : List (List NFloat)) (weights : List NFloat) :
    Except FLError (List NFloat) :=
  let wsum := nsumL weights
  if wsum = NFloat.num 0 then .error .zeroDivision
  else .ok ((List.range (rows.headD []).length).map
    (fun j => ndivF (dotNF weights (colAt rows j)) wsum))

/-- `[t.result()["model_weights"] for t in tasks]`: results are awaited in
submission order and the first exception propagates; no partial list is
produced. Source: line 206. -/
def collectResults : List (Except FLError TrainResult) →
    Except FLError (List TrainResult)
  | [] => .ok []
  | t :: ts =>
    match t with
    | .error e => .error e
    | .ok r =>
      match collectResults ts with
      | .error e => .error e
      | .ok rs => .ok (r :: rs)

/-- The `federated_mode` if/elif/else chain of lines 208-221, applied to the
collected results: plain mean, sample-weighted mean via `get_edge_weights`,
or the `raise Exception` for any other mode string. -/
def aggregate (mode : String) (results : List TrainResult) :
    Except FLError (List NFloat) :=
  let model_weights := results.map (fun r => r.model_weights)
  if mode = "average" then .ok (npMean model_weights)
  else if mode = "weighted_average" then
    let sample_counts := results.map (fun r => r.samples_count)
    let edge_weights := get_edge_weights sample_counts
    npAverage model_weights edge_weights
  else .error (.unknownMode mode)

/-- The parameters of `federated_learning` the control flow depends on.
`x_test` and `y_test` model only presence (`None` or not); the evaluation
callback is modelled by its truthiness and callability, since only
`evaluation_function and callable(evaluation_function)` is tested
(the default `eval_model` is truthy and callable).  `num_samples`, `epochs`,
`time_interval` and the dataset/model plumbing parameters do not influence
the orchestration and are absorbed into the remote behaviour. -/
structure FLConfig where
  endpoint_ids : List String
  loops : Nat
  federated_mode : String
  x_test : Option Unit
  y_test : Option Unit
  eval_truthy : Bool
  eval_callable : Bool
deriving DecidableEq, Repr

/-- The guard of line 228: `x_test is not None and y_test is not None and
evaluation_function and callable(evaluation_function)`. -/
def evalCond (cfg : FLConfig) : Bool :=
  cfg.x_test.isSome && cfg.y_test.isSome && cfg.eval_truthy && cfg.eval_callable

/-- Externally observable effects of a run: jobs submitted (round index and
endpoint, in submission order), weight values committed to the global model
via `set_weights` (in commit order), and the number of evaluation-callback
invocations. -/
structure FLTrace where
  submissions : List (Nat × String)
  commits : List (List NFloat)
  evals : Nat
deriving DecidableEq, Repr

/-- One iteration of the `for i in range(loops)` body (lines 186-231) and
the remaining iterations: submit one task per endpoint carrying the current
global weights, await all results in submission order, aggregate per the
configured mode, commit the aggregate with `set_weights`, optionally run the
evaluation callback, and continue.  The first uncaught exception aborts the
whole run; effects already performed stay in the trace. -/
def flLoop (cfg : FLConfig)
    (run : Nat → String → List NFloat → Except FLError TrainResult)
    (i rem : Nat) (gw : List NFloat) :
    Except FLError (List NFloat) × FLTrace :=
  match rem with
  | 0 => (.ok gw, ⟨[], [], 0⟩)
  | rem + 1 =>
    let subs := cfg.endpoint_ids.map (fun e => (i, e))
    match collectResults (cfg.endpoint_ids.map (fun e => run i e gw)) with
    | .error err => (.error err, ⟨subs, [], 0⟩)
    | .ok results =>
      match aggregate cfg.federated_mode results with
      | .error err => (.error err, ⟨subs, [], 0⟩)
      | .ok average_weights =>
        let ev := if evalCond cfg then 1 else 0
        let rest := flLoop cfg run (i + 1) rem average_weights
        (rest.1,
         ⟨subs ++ rest.2.submissions,
          average_weights :: rest.2.commits,
          ev + rest.2.evals⟩)

/-- `federated_learning` (lines 152-233): run the round loop `loops` times
starting from the global model's current weights; on success the returned
model carries the last committed weights. -/
def federated_learning (cfg : FLConfig)
    (run : Nat → String → List NFloat → Except FLError TrainResult)
    (gw : List NFloat) : Except FLError (List NFloat) × FLTrace :=
  flLoop cfg run 0 cfg.loops gw

/-- Modelled from the spec (section 4.1), for refinement comparison only:
`EdgeWeightCalculator.compute` as the spec words it — fails with
`AggregationError` if any count is negative or the sum is zero, otherwise
returns each count divided by the total. -/
def compute_spec (sample_counts : List ℚ) : Except String (List ℚ) :=
  if sample_counts.any (fun c => c < 0) then .error "AggregationError"
  else if sample_counts.sum = 0 then .error "AggregationError"
  else .ok (sample_counts.map (fun c => c / sample_counts.sum))

/-- A two-endpoint remote behaviour used in concrete instantiations:
endpoint E1 trains to parameter vector [1] on 100 samples, every other
endpoint to [3] on 300 samples. -/
def demoRun : Nat → String → List NFloat → Except FLError TrainResult :=
  fun _ e _ => .ok ⟨[NFloat.num (if e = "E1" then 1 else 3)],
                    if e = "E1" then 100 else 300⟩

/-- A remote behaviour whose endpoint E1 always fails while every other
endpoint succeeds, used in concrete instantiations. -/
def failRun : Nat → String → List NFloat → Except FLError TrainResult :=
  fun _ e _ =>
    if e = "E1" then .error (.remote "boom")
    else .ok ⟨[NFloat.num 3], 300⟩

/-- Configuration with the two endpoints E1 and E2, one round, and the
given mode; evaluation inputs left at their defaults (`None`). -/
def twoEndpointCfg (mode : String) : FLConfig :=
  ⟨["E1", "E2"], 1, mode, none, none, true, true⟩

/-- The training result `demoRun` produces for an endpoint. -/
def demoRes : String → TrainResult :=
  fun e => ⟨[NFloat.num (if e = "E1" then 1 else 3)],
            if e = "E1" then 100 else 300⟩

/-- Configuration with the two endpoints E1 and E2, three rounds, plain
averaging; evaluation inputs left at their defaults (`None`). -/
def threeRoundCfg : FLConfig :=
  ⟨["E1", "E2"], 3, "average", none, none, true, true⟩

/-- The spec's sample-weighted mean (section 4.2): position `j` of the
result is the sum over endpoints of `weights[i] * params[i][j]`, where
`weights[i]` is endpoint `i`'s share of the total sample count. -/
def weightedMeanFormula (eps : List String) (resf : String → TrainResult)
    (qp : String → List ℚ) (L : Nat) : List NFloat :=
  (List.range L).map (fun j =>
    .num ((eps.map (fun e =>
      ((resf e).samples_count /
        (eps.map (fun e2 => (resf e2).samples_count)).sum) *
      ((qp e).getD j 0))).sum))

/-- The spec's uniform mean (section 4.2): position `j` of the result is
the arithmetic mean over endpoints of `params[i][j]`. -/
def uniformMeanFormula (eps : List String) (qp : String → List ℚ)
    (L : Nat) : List NFloat :=
  (List.range L).map (fun j =>
    .num ((eps.map (fun e => (qp e).getD j 0)).sum / eps.length))

/- ------------------------------------------------------------------ -/
/- Case equations for the NFloat operations, kept as explicit lemmas so
   simplification fires only once the constructors are visible. -/

theorem nadd_num (a b : ℚ) : nadd (.num a) (.num b) = .num (a + b) := rfl

theorem nadd_nan_left (x : NFloat) : nadd .nan x = .nan := by
  cases x <;> rfl

theorem nadd_nan_right (x : NFloat) : nadd x .nan = .nan := by
  cases x <;> rfl

theorem nmul_num (a b : ℚ) : nmul (.num a) (.num b) = .num (a * b) := rfl

theorem ndivF_num (a b : ℚ) :
    ndivF (.num a) (.num b) =
      if b = 0 then (if a = 0 then .nan else if 0 < a then .inf else .neginf)
      else .num (a / b) := rfl

theorem ndivF_num_of_ne (a b : ℚ) (hb : b ≠ 0) :
    ndivF (.num a) (.num b) = .num (a / b) := by
  rw [ndivF_num, if_neg hb]

theorem ndivF_zero_zero : ndivF (.num 0) (.num 0) = .nan := rfl

theorem ndivF_num_zero_not_num (a q : ℚ) :
    ndivF (.num a) (.num 0) ≠ .num q := by
  rw [ndivF_num, if_pos rfl]
  split
  · exact fun h => NFloat.noConfusion h
  · split <;> exact fun h => NFloat.noConfusion h

theorem nadd_not_num (x y : NFloat) (hx : ∀ q, x ≠ .num q) :
    ∀ q, nadd x y ≠ .num q := by
  intro q
  cases x <;> cases y <;>
    first
      | exact fun h => NFloat.noConfusion h
      | exact absurd rfl (fun h => NFloat.noConfusion (hx _ h))
      | exact (hx _ rfl).elim

theorem nsumL_nil : nsumL [] = .num 0 := rfl

theorem nsumL_cons (x : NFloat) (l : List NFloat) :
    nsumL (x :: l) = nadd x (nsumL l) := rfl

theorem nsumL_map_num (l : List ℚ) :
    nsumL (l.map NFloat.num) = .num l.sum := by
  induction l with
  | nil => rfl
  | cons a t ih => simp [nsumL_cons, ih, nadd_num]

/- ------------------------------------------------------------------ -/
/- Facts about get_edge_weights. -/

theorem get_edge_weights_of_sum_ne (counts : List ℚ) (h : counts.sum ≠ 0) :
    get_edge_weights counts = counts.map (fun c => .num (c / counts.sum)) := by
  unfold get_edge_weights
  exact List.map_congr_left (fun c _ => ndivF_num_of_ne c counts.sum h)

theorem get_edge_weights_sum_of_ne (counts : List ℚ) (h : counts.sum ≠ 0) :
    nsumL (get_edge_weights counts) = .num 1 := by
  rw [get_edge_weights_of_sum_ne counts h]
  have hm : counts.map (fun c => NFloat.num (c / counts.sum)) =
      (counts.map (fun c => c / counts.sum)).map NFloat.num := by
    simp [List.map_map, Function.comp]
  rw [hm, nsumL_map_num]
  have : (counts.map (fun c => c / counts.sum)).sum = counts.sum / counts.sum := by
    simp only [div_eq_mul_inv]
    rw [List.sum_map_mul_right]
    simp
  rw [this, div_self h]

theorem get_edge_weights_sum_not_num_zero (counts : List ℚ)
    (hne : counts ≠ []) : nsumL (get_edge_weights counts) ≠ .num 0 := by
  by_cases h : counts.sum = 0
  · obtain ⟨c, t, rfl⟩ := List.exists_cons_of_ne_nil hne
    unfold get_edge_weights
    rw [List.map_cons, nsumL_cons]
    intro hcon
    exact nadd_not_num _ _
      (by rw [h]; exact fun q => ndivF_num_zero_not_num c q) 0 hcon
  · rw [get_edge_weights_sum_of_ne counts h]
    intro hcon
    exact one_ne_zero (NFloat.num.inj hcon)

/- ------------------------------------------------------------------ -/
/- Collection: first-error semantics. -/

theorem collectResults_nil : collectResults [] = .ok [] := rfl

theorem collectResults_cons_error (e : FLError)
    (ts : List (Except FLError TrainResult)) :
    collectResults (.error e :: ts) = .error e := rfl

theorem collectResults_cons_ok (r : TrainResult)
    (ts : List (Except FLError TrainResult)) :
    collectResults (.ok r :: ts) =
      match collectResults ts with
      | .error e => .error e
      | .ok rs => .ok (r :: rs) := rfl

theorem collectResults_map_ok (eps : List String)
    (f : String → Except FLError TrainResult) (res : String → TrainResult)
    (h : ∀ e ∈ eps, f e = .ok (res e)) :
    collectResults (eps.map f) = .ok (eps.map res) := by
  induction eps with
  | nil => rfl
  | cons a t ih =>
    rw [List.map_cons, h a (List.mem_cons_self a t), collectResults_cons_ok,
      ih (fun e he => h e (List.mem_cons_of_mem a he))]
    rfl

theorem collectResults_ok_of_forall (l : List (Except FLError TrainResult))
    (h : ∀ x ∈ l, ∃ r, x = .ok r) :
    ∃ rs, collectResults l = .ok rs ∧ rs.length = l.length := by
  induction l with
  | nil => exact ⟨[], rfl, rfl⟩
  | cons a t ih =>
    obtain ⟨r, rfl⟩ := h a (List.mem_cons_self a t)
    obtain ⟨rs, hrs, hlen⟩ := ih (fun x hx => h x (List.mem_cons_of_mem _ hx))
    exact ⟨r :: rs, by rw [collectResults_cons_ok, hrs], by simp [hlen]⟩

theorem collectResults_append_error (l1 l2 : List (Except FLError TrainResult))
    (err : FLError) (h : ∀ x ∈ l1, ∃ r, x = .ok r) :
    collectResults (l1 ++ .error err :: l2) = .error err := by
  induction l1 with
  | nil => rfl
  | cons a t ih =>
    obtain ⟨r, rfl⟩ := h a (List.mem_cons_self a t)
    rw [List.cons_append, collectResults_cons_ok,
      ih (fun x hx => h x (List.mem_cons_of_mem _ hx))]

/- ------------------------------------------------------------------ -/
/- Aggregation: the mode chain and success conditions. -/

theorem aggregate_average (results : List TrainResult) :
    aggregate "average" results =
      .ok (npMean (results.map (fun r => r.model_weights))) := by
  simp [aggregate]

theorem aggregate_weighted (results : List TrainResult) :
    aggregate "weighted_average" results =
      npAverage (results.map (fun r => r.model_weights))
        (get_edge_weights (results.map (fun r => r.samples_count))) := by
  simp [aggregate]

theorem aggregate_unknown (mode : String) (results : List TrainResult)
    (h1 : mode ≠ "average") (h2 : mode ≠ "weighted_average") :
    aggregate mode results = .error (.unknownMode mode) := by
  simp [aggregate, h1, h2]

theorem npAverage_of_wsum_ne (rows : List (List NFloat))
    (weights : List NFloat) (h : nsumL weights ≠ .num 0) :
    npAverage rows weights =
      .ok ((List.range (rows.headD []).length).map
        (fun j => ndivF (dotNF weights (colAt rows j)) (nsumL weights))) := by
  simp [npAverage, h]

theorem aggregate_ok_of_valid (mode : String) (results : List TrainResult)
    (hmode : mode = "average" ∨ mode = "weighted_average")
    (hne : results ≠ []) :
    ∃ aw, aggregate mode results = .ok aw := by
  rcases hmode with h | h
  · exact ⟨_, by rw [h, aggregate_average]⟩
  · rw [h, aggregate_weighted]
    have hcne : results.map (fun r => r.samples_count) ≠ [] := by
      simpa using hne
    exact ⟨_, npAverage_of_wsum_ne _ _
      (get_edge_weights_sum_not_num_zero _ hcne)⟩

/- ------------------------------------------------------------------ -/
/- The round loop: one equation per control path. -/

theorem flLoop_zero (cfg : FLConfig)
    (run : Nat → String → List NFloat → Except FLError TrainResult)
    (i : Nat) (gw : List NFloat) :
    flLoop cfg run i 0 gw = (.ok gw, ⟨[], [], 0⟩) := rfl

theorem flLoop_collect_error (cfg : FLConfig)
    (run : Nat → String → List NFloat → Except FLError TrainResult)
    (i rem : Nat) (gw : List NFloat) (err : FLError)
    (h : collectResults (cfg.endpoint_ids.map (fun e => run i e gw)) =
      .error err) :
    flLoop cfg run i (rem + 1) gw =
      (.error err, ⟨cfg.endpoint_ids.map (fun e => (i, e)), [], 0⟩) := by
  rw [flLoop, h]

theorem flLoop_aggregate_error (cfg : FLConfig)
    (run : Nat → String → List NFloat → Except FLError TrainResult)
    (i rem : Nat) (gw : List NFloat) (results : List TrainResult)
    (err : FLError)
    (h1 : collectResults (cfg.endpoint_ids.map (fun e => run i e gw)) =
      .ok results)
    (h2 : aggregate cfg.federated_mode results = .error err) :
    flLoop cfg run i (rem + 1) gw =
      (.error err, ⟨cfg.endpoint_ids.map (fun e => (i, e)), [], 0⟩) := by
  rw [flLoop, h1]
  simp only []
  rw [h2]

theorem flLoop_step (cfg : FLConfig)
    (run : Nat → String → List NFloat → Except FLError TrainResult)
    (i rem : Nat) (gw : List NFloat) (results : List TrainResult)
    (aw : List NFloat)
    (h1 : collectResults (cfg.endpoint_ids.map (fun e => run i e gw)) =
      .ok results)
    (h2 : aggregate cfg.federated_mode results = .ok aw) :
    flLoop cfg run i (rem + 1) gw =
      ((flLoop cfg run (i + 1) rem aw).1,
       ⟨cfg.endpoint_ids.map (fun e => (i, e)) ++
          (flLoop cfg run (i + 1) rem aw).2.submissions,
        aw :: (flLoop cfg run (i + 1) rem aw).2.commits,
        (if evalCond cfg then 1 else 0) +
          (flLoop cfg run (i + 1) rem aw).2.evals⟩) := by
  rw [flLoop, h1]
  simp only []
  rw [h2]

/- ------------------------------------------------------------------ -/
/- Whole-run lemmas. -/

theorem flLoop_all_ok (cfg : FLConfig)
    (run : Nat → String → List NFloat → Except FLError TrainResult)
    (hmode : cfg.federated_mode = "average" ∨
      cfg.federated_mode = "weighted_average")
    (heps : cfg.endpoint_ids ≠ [])
    (hok : ∀ i e w, ∃ rv, run i e w = .ok rv) :
    ∀ rem i gw,
      (flLoop cfg run i rem gw).1 =
        .ok ((flLoop cfg run i rem gw).2.commits.getLastD gw) ∧
      (flLoop cfg run i rem gw).2.commits.length = rem ∧
      (flLoop cfg run i rem gw).2.submissions =
        (List.range rem).flatMap
          (fun j => cfg.endpoint_ids.map (fun e => (i + j, e))) := by
  intro rem
  induction rem with
  | zero => intro i gw; rw [flLoop_zero]; exact ⟨rfl, rfl, rfl⟩
  | succ rem ih =>
    intro i gw
    obtain ⟨results, hres, hlen⟩ := collectResults_ok_of_forall
      (cfg.endpoint_ids.map (fun e => run i e gw))
      (by
        intro x hx
        obtain ⟨e, _, rfl⟩ := List.mem_map.mp hx
        exact hok i e gw)
    have hresne : results ≠ [] := by
      apply List.ne_nil_of_length_pos
      rw [hlen, List.length_map]
      exact List.length_pos.mpr heps
    obtain ⟨aw, haw⟩ := aggregate_ok_of_valid _ _ hmode hresne
    rw [flLoop_step cfg run i rem gw results aw hres haw]
    obtain ⟨ih1, ih2, ih3⟩ := ih (i + 1) aw
    refine ⟨?_, by simpa using ih2, ?_⟩
    · show (flLoop cfg run (i + 1) rem aw).1 =
        .ok ((aw :: (flLoop cfg run (i + 1) rem aw).2.commits).getLastD gw)
      rw [List.getLastD_cons]
      exact ih1
    · show cfg.endpoint_ids.map (fun e => (i, e)) ++
        (flLoop cfg run (i + 1) rem aw).2.submissions = _
      have hshift : ((List.range rem).map Nat.succ).flatMap
          (fun j => cfg.endpoint_ids.map (fun e => (i + j, e))) =
          (List.range rem).flatMap
            (fun j => cfg.endpoint_ids.map (fun e => (i + 1 + j, e))) := by
        rw [List.flatMap_map]
        exact congrArg (List.flatMap (List.range rem))
          (funext fun j => by
            have h : i + Nat.succ j = i + 1 + j := by omega
            rw [h])
      rw [ih3, List.range_succ_eq_map, List.flatMap_cons, hshift]
      simp

theorem flLoop_evals (cfg : FLConfig)
    (run : Nat → String → List NFloat → Except FLError TrainResult) :
    ∀ rem i gw,
      (flLoop cfg run i rem gw).2.evals =
        if evalCond cfg then (flLoop cfg run i rem gw).2.commits.length
        else 0 := by
  intro rem
  induction rem with
  | zero => intro i gw; rw [flLoop_zero]; simp
  | succ rem ih =>
    intro i gw
    rcases hc : collectResults (cfg.endpoint_ids.map (fun e => run i e gw)) with
      err | results
    · rw [flLoop_collect_error cfg run i rem gw err hc]; simp
    · rcases ha : aggregate cfg.federated_mode results with err | aw
      · rw [flLoop_aggregate_error cfg run i rem gw results err hc ha]; simp
      · rw [flLoop_step cfg run i rem gw results aw hc ha]
        have := ih (i + 1) aw
        by_cases hev : evalCond cfg <;> simp [hev] at this ⊢ <;> omega

theorem flatMap_range_shift (n i : Nat) (eps : List String) :
    ((List.range n).map Nat.succ).flatMap
      (fun j => eps.map (fun e => (i + j, e))) =
    (List.range n).flatMap (fun j => eps.map (fun e => (i + 1 + j, e))) := by
  rw [List.flatMap_map]
  exact congrArg (List.flatMap (List.range n))
    (funext fun j => by
      have h : i + Nat.succ j = i + 1 + j := by omega
      rw [h])

theorem flLoop_abort (cfg : FLConfig)
    (run : Nat → String → List NFloat → Except FLError TrainResult)
    (pre post : List String) (efail : String) (err : FLError)
    (hmode : cfg.federated_mode = "average" ∨
      cfg.federated_mode = "weighted_average")
    (hsplit : cfg.endpoint_ids = pre ++ efail :: post) :
    ∀ r i rem gw, r < rem →
      (∀ j, j < r → ∀ e ∈ cfg.endpoint_ids, ∀ w, ∃ rv, run (i + j) e w = .ok rv) →
      (∀ e ∈ pre, ∀ w, ∃ rv, run (i + r) e w = .ok rv) →
      (∀ w, run (i + r) efail w = .error err) →
      (flLoop cfg run i rem gw).1 = .error err ∧
      (flLoop cfg run i rem gw).2.commits.length = r ∧
      (flLoop cfg run i rem gw).2.submissions =
        (List.range (r + 1)).flatMap
          (fun j => cfg.endpoint_ids.map (fun e => (i + j, e))) := by
  intro r
  induction r with
  | zero =>
    intro i rem gw hlt hprev hpre hfail
    match rem, hlt with
    | s + 1, _ =>
      have hcol : collectResults
          (cfg.endpoint_ids.map (fun e => run i e gw)) = .error err := by
        rw [hsplit, List.map_append, List.map_cons]
        have hf : run i efail gw = .error err := by simpa using hfail gw
        rw [hf]
        exact collectResults_append_error _ _ err (by
          intro x hx
          obtain ⟨e, he, rfl⟩ := List.mem_map.mp hx
          simpa using hpre e he gw)
      rw [flLoop_collect_error cfg run i s gw err hcol]
      refine ⟨rfl, rfl, ?_⟩
      rw [show List.range 1 = [0] from rfl, List.flatMap_cons]
      simp
  | succ r ih =>
    intro i rem gw hlt hprev hpre hfail
    match rem, hlt with
    | s + 1, hlt =>
      have hs : r < s := by omega
      obtain ⟨results, hres, hlen⟩ := collectResults_ok_of_forall
        (cfg.endpoint_ids.map (fun e => run i e gw))
        (by
          intro x hx
          obtain ⟨e, he, rfl⟩ := List.mem_map.mp hx
          simpa using hprev 0 (by omega) e he gw)
      have hresne : results ≠ [] := by
        apply List.ne_nil_of_length_pos
        rw [hlen, List.length_map]
        have : cfg.endpoint_ids ≠ [] := by simp [hsplit]
        exact List.length_pos.mpr this
      obtain ⟨aw, haw⟩ := aggregate_ok_of_valid _ _ hmode hresne
      rw [flLoop_step cfg run i s gw results aw hres haw]
      obtain ⟨ih1, ih2, ih3⟩ := ih (i + 1) s aw hs
        (by
          intro j hj e he w
          have := hprev (j + 1) (by omega) e he w
          simpa [Nat.add_assoc, Nat.add_comm 1 j] using this)
        (by
          intro e he w
          have := hpre e he w
          simpa [Nat.add_assoc, Nat.add_comm 1 r] using this)
        (by
          intro w
          have := hfail w
          simpa [Nat.add_assoc, Nat.add_comm 1 r] using this)
      refine ⟨ih1, by simpa using ih2, ?_⟩
      show cfg.endpoint_ids.map (fun e => (i, e)) ++
        (flLoop cfg run (i + 1) s aw).2.submissions = _
      rw [List.range_succ_eq_map, List.flatMap_cons,
        flatMap_range_shift (r + 1) i cfg.endpoint_ids, ih3]
      simp

/- ------------------------------------------------------------------ -/
/- Pointwise aggregation formulas over finite rational parameters. -/

theorem getD_map_num (l : List ℚ) (j : Nat) :
    (l.map NFloat.num).getD j (.num 0) = .num (l.getD j 0) := by
  rw [List.getD_eq_getElem?_getD, List.getElem?_map, List.getD_eq_getElem?_getD]
  exact Option.getD_map NFloat.num 0 _

theorem colAt_map_num (eps : List String) (qp : String → List ℚ) (j : Nat) :
    colAt (eps.map (fun e => (qp e).map NFloat.num)) j =
      eps.map (fun e => NFloat.num ((qp e).getD j 0)) := by
  unfold colAt
  rw [List.map_map]
  exact List.map_congr_left (fun e _ => by simp [Function.comp, getD_map_num])

theorem dotNF_map_num (eps : List String) (f g : String → ℚ) :
    dotNF (eps.map (fun e => NFloat.num (f e)))
        (eps.map (fun e => NFloat.num (g e))) =
      .num ((eps.map (fun e => f e * g e)).sum) := by
  unfold dotNF
  rw [List.zipWith_map, List.zipWith_same]
  have h1 : (fun e => nmul (NFloat.num (f e)) (NFloat.num (g e))) =
      (fun e => NFloat.num (f e * g e)) := funext (fun e => nmul_num _ _)
  rw [h1]
  have h2 : eps.map (fun e => NFloat.num (f e * g e)) =
      (eps.map (fun e => f e * g e)).map NFloat.num := by
    simp [List.map_map, Function.comp]
  rw [h2, nsumL_map_num]

theorem nsumL_map_num_fn (eps : List String) (f : String → ℚ) :
    nsumL (eps.map (fun e => NFloat.num (f e))) = .num ((eps.map f).sum) := by
  have h : eps.map (fun e => NFloat.num (f e)) = (eps.map f).map NFloat.num := by
    simp [List.map_map, Function.comp]
  rw [h, nsumL_map_num]

theorem rows_map_model_weights (eps : List String) (resf : String → TrainResult)
    (qp : String → List ℚ)
    (hq : ∀ e ∈ eps, (resf e).model_weights = (qp e).map NFloat.num) :
    (eps.map resf).map (fun r => r.model_weights) =
      eps.map (fun e => (qp e).map NFloat.num) := by
  rw [List.map_map]
  exact List.map_congr_left (fun e he => by simp [Function.comp, hq e he])

theorem counts_map_samples (eps : List String) (resf : String → TrainResult) :
    (eps.map resf).map (fun r => r.samples_count) =
      eps.map (fun e => (resf e).samples_count) := by
  rw [List.map_map]
  rfl

theorem rows_headD_length (eps : List String) (qp : String → List ℚ) (L : Nat)
    (hL : ∀ e ∈ eps, (qp e).length = L) (heps : eps ≠ []) :
    ((eps.map (fun e => (qp e).map NFloat.num)).headD []).length = L := by
  obtain ⟨e0, tl, rfl⟩ := List.exists_cons_of_ne_nil heps
  simp [hL e0 (List.mem_cons_self e0 tl)]

theorem aggregate_weighted_formula (eps : List String)
    (resf : String → TrainResult) (qp : String → List ℚ) (L : Nat)
    (hq : ∀ e ∈ eps, (resf e).model_weights = (qp e).map NFloat.num)
    (hL : ∀ e ∈ eps, (qp e).length = L)
    (htot : (eps.map (fun e => (resf e).samples_count)).sum ≠ 0) :
    aggregate "weighted_average" (eps.map resf) =
      .ok ((List.range L).map (fun j =>
        .num ((eps.map (fun e =>
          ((resf e).samples_count /
            (eps.map (fun e2 => (resf e2).samples_count)).sum) *
          ((qp e).getD j 0))).sum))) := by
  have heps : eps ≠ [] := by
    intro h
    rw [h] at htot
    exact htot rfl
  rw [aggregate_weighted, rows_map_model_weights eps resf qp hq,
    counts_map_samples eps resf, get_edge_weights_of_sum_ne _ htot]
  have hwmap : (eps.map (fun e => (resf e).samples_count)).map
      (fun c => NFloat.num
        (c / (eps.map (fun e => (resf e).samples_count)).sum)) =
      eps.map (fun e => NFloat.num
        ((resf e).samples_count /
          (eps.map (fun e2 => (resf e2).samples_count)).sum)) := by
    rw [List.map_map]
    rfl
  rw [hwmap]
  have hws : nsumL (eps.map (fun e => NFloat.num
      ((resf e).samples_count /
        (eps.map (fun e2 => (resf e2).samples_count)).sum))) = .num 1 := by
    rw [nsumL_map_num_fn]
    have : (eps.map (fun e => (resf e).samples_count /
        (eps.map (fun e2 => (resf e2).samples_count)).sum)).sum =
        (eps.map (fun e => (resf e).samples_count)).sum /
          (eps.map (fun e2 => (resf e2).samples_count)).sum := by
      simp only [div_eq_mul_inv]
      rw [← List.sum_map_mul_right]
    rw [this, div_self htot]
  have hne : nsumL (eps.map (fun e => NFloat.num
      ((resf e).samples_count /
        (eps.map (fun e2 => (resf e2).samples_count)).sum))) ≠ .num 0 := by
    rw [hws]
    intro hcon
    exact one_ne_zero (NFloat.num.inj hcon)
  rw [npAverage_of_wsum_ne _ _ hne, hws,
    rows_headD_length eps qp L hL heps]
  refine congrArg Except.ok (List.map_congr_left (fun j _ => ?_))
  rw [colAt_map_num, dotNF_map_num, ndivF_num_of_ne _ _ one_ne_zero, div_one]

theorem aggregate_average_formula (eps : List String)
    (resf : String → TrainResult) (qp : String → List ℚ) (L : Nat)
    (hq : ∀ e ∈ eps, (resf e).model_weights = (qp e).map NFloat.num)
    (hL : ∀ e ∈ eps, (qp e).length = L)
    (heps : eps ≠ []) :
    aggregate "average" (eps.map resf) =
      .ok ((List.range L).map (fun j =>
        .num ((eps.map (fun e => (qp e).getD j 0)).sum / eps.length))) := by
  rw [aggregate_average, rows_map_model_weights eps resf qp hq]
  unfold npMean
  rw [rows_headD_length eps qp L hL heps, List.length_map]
  refine congrArg Except.ok (List.map_congr_left (fun j _ => ?_))
  rw [colAt_map_num, nsumL_map_num_fn]
  have hn : ((eps.length : ℚ)) ≠ 0 := by
    have := List.length_pos.mpr heps
    exact_mod_cast Nat.pos_iff_ne_zero.mp this
  exact ndivF_num_of_ne _ _ hn

theorem federated_one_round (cfg : FLConfig)
    (run : Nat → String → List NFloat → Except FLError TrainResult)
    (gw : List NFloat) (resf : String → TrainResult) (aw : List NFloat)
    (hloops : cfg.loops = 1)
    (hok : ∀ e ∈ cfg.endpoint_ids, run 0 e gw = .ok (resf e))
    (hagg : aggregate cfg.federated_mode (cfg.endpoint_ids.map resf) =
      .ok aw) :
    federated_learning cfg run gw =
      (.ok aw, ⟨cfg.endpoint_ids.map (fun e => (0, e)), [aw],
        if evalCond cfg then 1 else 0⟩) := by
  unfold federated_learning
  rw [hloops]
  have hcol := collectResults_map_ok cfg.endpoint_ids
    (fun e => run 0 e gw) resf hok
  rw [flLoop_step cfg run 0 0 gw _ aw hcol hagg, flLoop_zero]
  simp

/- ================================================================== -/
/- Claim theorems. -/

/-- C1 (counterexample): with `federated_mode = "median"` (outside the two
supported modes), two endpoints and one round, the run does fail with the
unknown-mode error — but only after a training job has been submitted to
and collected from each endpoint, so the endpoints do NOT observe zero
calls: the claim's "no training job is ever submitted" is false. -/
theorem C1_counterexample :
    (federated_learning (twoEndpointCfg "median") demoRun []).2.submissions ≠
      [] ∧
    (federated_learning (twoEndpointCfg "median") demoRun []).1 =
      .error (.unknownMode "median") := by
  have hok : ∀ e ∈ (twoEndpointCfg "median").endpoint_ids,
      demoRun 0 e [] = .ok (demoRes e) := fun e _ => rfl
  have hcol := collectResults_map_ok (twoEndpointCfg "median").endpoint_ids
    (fun e => demoRun 0 e []) demoRes hok
  have hagg := aggregate_unknown "median"
    ((twoEndpointCfg "median").endpoint_ids.map demoRes)
    (by simp) (by simp)
  have h := flLoop_aggregate_error (twoEndpointCfg "median") demoRun 0 0 []
    ((twoEndpointCfg "median").endpoint_ids.map demoRes)
    (.unknownMode "median") hcol hagg
  constructor
  · show (federated_learning (twoEndpointCfg "median") demoRun []).2.submissions ≠ []
    unfold federated_learning
    rw [show (twoEndpointCfg "median").loops = 0 + 1 from rfl, h]
    simp [twoEndpointCfg]
  · show (federated_learning (twoEndpointCfg "median") demoRun []).1 = _
    unfold federated_learning
    rw [show (twoEndpointCfg "median").loops = 0 + 1 from rfl, h]

/-- C1 (amended): for every configuration whose `federated_mode` is outside
the set containing "average" and "weighted_average", with at least one round
and all round-0 tasks succeeding, the run fails with the unknown-mode
exception — but only after dispatching one job per endpoint in round 0
(each endpoint observes one call, not zero) and before any commit. -/
theorem C1_unknown_mode_after_dispatch (cfg : FLConfig)
    (run : Nat → String → List NFloat → Except FLError TrainResult)
    (gw : List NFloat) (resf : String → TrainResult)
    (hm1 : cfg.federated_mode ≠ "average")
    (hm2 : cfg.federated_mode ≠ "weighted_average")
    (hloops : 0 < cfg.loops)
    (hok : ∀ e ∈ cfg.endpoint_ids, run 0 e gw = .ok (resf e)) :
    (federated_learning cfg run gw).1 =
      .error (.unknownMode cfg.federated_mode) ∧
    (federated_learning cfg run gw).2.commits = [] ∧
    (federated_learning cfg run gw).2.submissions =
      cfg.endpoint_ids.map (fun e => (0, e)) := by
  unfold federated_learning
  obtain ⟨s, hs⟩ : ∃ s, cfg.loops = s + 1 := ⟨cfg.loops - 1, by omega⟩
  rw [hs]
  have hcol := collectResults_map_ok cfg.endpoint_ids
    (fun e => run 0 e gw) resf hok
  rw [flLoop_aggregate_error cfg run 0 s gw _ _ hcol
    (aggregate_unknown _ _ hm1 hm2)]
  exact ⟨rfl, rfl, rfl⟩

/-- C1 (witness): the amended statement at `federated_mode = "median"`,
two endpoints, one round. -/
theorem C1_unknown_mode_after_dispatch_witness :
    (federated_learning (twoEndpointCfg "median") demoRun []).1 =
      .error (.unknownMode "median") ∧
    (federated_learning (twoEndpointCfg "median") demoRun []).2.commits =
      [] ∧
    (federated_learning (twoEndpointCfg "median") demoRun []).2.submissions =
      [(0, "E1"), (0, "E2")] := by
  have h := C1_unknown_mode_after_dispatch (twoEndpointCfg "median") demoRun
    [] demoRes (by simp [twoEndpointCfg]) (by simp [twoEndpointCfg])
    (by simp [twoEndpointCfg]) (fun e _ => rfl)
  exact ⟨h.1, h.2.1, by rw [h.2.2]; rfl⟩

/-- C2 (counterexample): `get_edge_weights` applied to the all-zero list
`[0, 0]` does not fail at all — it returns the value `[nan, nan]`
(numpy emits a warning and produces `0/0 = nan` entries), whereas the
spec-modelled `EdgeWeightCalculator.compute` fails with `AggregationError`
on that input. -/
theorem C2_counterexample :
    get_edge_weights [0, 0] = [NFloat.nan, NFloat.nan] ∧
    compute_spec [0, 0] = .error "AggregationError" := by
  constructor
  · norm_num [get_edge_weights, ndivF]
  · norm_num [compute_spec]

/-- C2 (amended): `get_edge_weights` performs no validation and never
raises: on an all-zero sequence of any length it returns a same-length
sequence of NaN entries instead of an `AggregationError`, and negative
counts are divided through like any others (for `[-1, 2]` it returns the
fractions `[-1, 2]`). -/
theorem C2_no_validation :
    (∀ n, get_edge_weights (List.replicate n 0) =
      List.replicate n NFloat.nan) ∧
    get_edge_weights [-1, 2] = [NFloat.num (-1), NFloat.num 2] := by
  constructor
  · intro n
    unfold get_edge_weights
    simp [List.sum_replicate, List.map_replicate, ndivF_zero_zero]
  · norm_num [get_edge_weights, ndivF]

/-- C6 (counterexample): the empty list is (vacuously) a sequence of
strictly positive sample counts, yet `get_edge_weights []` returns the
empty list whose fraction sum is 0, not 1: the universally quantified claim
fails at the empty input. -/
theorem C6_counterexample :
    get_edge_weights [] = [] ∧
    nsumL (get_edge_weights []) ≠ NFloat.num 1 := by
  refine ⟨rfl, ?_⟩
  rw [show get_edge_weights [] = [] from rfl, nsumL_nil]
  intro h
  exact one_ne_zero (NFloat.num.inj h).symm

/-- C6 (amended): for every NONEMPTY sequence of strictly positive sample
counts, `get_edge_weights` returns a same-length sequence, in input order,
whose entry for count `c` is the fraction `c / sum`; all entries are
non-negative finite rationals and they sum exactly to 1. -/
theorem C6_positive_weights (counts : List ℚ) (hne : counts ≠ [])
    (hpos : ∀ c ∈ counts, 0 < c) :
    get_edge_weights counts =
      counts.map (fun c => .num (c / counts.sum)) ∧
    (get_edge_weights counts).length = counts.length ∧
    (∀ w ∈ get_edge_weights counts, ∃ q, w = .num q ∧ 0 ≤ q) ∧
    nsumL (get_edge_weights counts) = .num 1 := by
  have hs : 0 < counts.sum := List.sum_pos counts hpos hne
  have hs0 : counts.sum ≠ 0 := ne_of_gt hs
  refine ⟨get_edge_weights_of_sum_ne counts hs0, ?_, ?_,
    get_edge_weights_sum_of_ne counts hs0⟩
  · rw [get_edge_weights_of_sum_ne counts hs0, List.length_map]
  · intro w hw
    rw [get_edge_weights_of_sum_ne counts hs0] at hw
    obtain ⟨c, hc, rfl⟩ := List.mem_map.mp hw
    exact ⟨c / counts.sum, rfl,
      div_nonneg (le_of_lt (hpos c hc)) (le_of_lt hs)⟩

/-- C6 (witness): the amended statement at counts `[100, 300]`, whose
fractions are `[1/4, 3/4]` and sum to 1. -/
theorem C6_positive_weights_witness :
    get_edge_weights [100, 300] =
      [NFloat.num (1 / 4), NFloat.num (3 / 4)] ∧
    nsumL (get_edge_weights [100, 300]) = NFloat.num 1 := by
  have h := C6_positive_weights [100, 300] (by simp)
    (by intro c hc; simp at hc; rcases hc with rfl | rfl <;> norm_num)
  refine ⟨?_, h.2.2.2⟩
  rw [h.1]
  norm_num

/-- C9: the evaluation callback fires exactly once per committed round when
`x_test` and `y_test` are both non-None and the callback is truthy and
callable, and never fires otherwise; in particular, with the default
arguments (`x_test = None`, `y_test = None`, callback `eval_model`
supplied) no evaluation ever runs. -/
theorem C9_eval_guard :
    (∀ cfg run gw,
      (federated_learning cfg run gw).2.evals =
        if evalCond cfg then
          (federated_learning cfg run gw).2.commits.length
        else 0) ∧
    (∀ eps loops mode run gw,
      (federated_learning ⟨eps, loops, mode, none, none, true, true⟩
        run gw).2.evals = 0) := by
  constructor
  · intro cfg run gw
    have h := flLoop_evals cfg run cfg.loops 0 gw
    simpa [federated_learning] using h
  · intro eps loops mode run gw
    have h := flLoop_evals ⟨eps, loops, mode, none, none, true, true⟩
      run loops 0 gw
    simpa [federated_learning, evalCond] using h

/-- C10: with `loops = 0` the round body never executes: the run returns
the global model with its weights unchanged, submits no job, commits
nothing and invokes no evaluation callback. -/
theorem C10_zero_loops (cfg : FLConfig)
    (run : Nat → String → List NFloat → Except FLError TrainResult)
    (gw : List NFloat) (h : cfg.loops = 0) :
    federated_learning cfg run gw = (.ok gw, ⟨[], [], 0⟩) := by
  unfold federated_learning
  rw [h, flLoop_zero]

/-- C10 (witness): a zero-round run over one endpoint returns the weights
`[7]` untouched with an empty trace. -/
theorem C10_zero_loops_witness :
    federated_learning ⟨["E1"], 0, "average", none, none, true, true⟩
      demoRun [NFloat.num 7] = (.ok [NFloat.num 7], ⟨[], [], 0⟩) :=
  C10_zero_loops _ demoRun _ rfl

/-- C3: if every task of rounds before `r` succeeds, and in round `r` the
endpoints split as `pre ++ efail :: post` with every task of `pre`
succeeding and `efail`'s task failing with `err`, then the whole run aborts
with exactly `err` — the first error in the order the task handles are
awaited (submission order), whatever the later handles do — no partial
result list is produced, round `r` commits nothing (the trace holds exactly
the `r` commits of the completed rounds, so the model keeps its last
committed pre-round weights), while all of round `r`'s jobs were already
submitted. -/
theorem C3_first_error_aborts (cfg : FLConfig)
    (run : Nat → String → List NFloat → Except FLError TrainResult)
    (gw : List NFloat) (pre post : List String) (efail : String)
    (err : FLError) (r : Nat)
    (hmode : cfg.federated_mode = "average" ∨
      cfg.federated_mode = "weighted_average")
    (hsplit : cfg.endpoint_ids = pre ++ efail :: post)
    (hr : r < cfg.loops)
    (hprev : ∀ j, j < r → ∀ e ∈ cfg.endpoint_ids, ∀ w, ∃ rv,
      run j e w = .ok rv)
    (hpre : ∀ e ∈ pre, ∀ w, ∃ rv, run r e w = .ok rv)
    (hfail : ∀ w, run r efail w = .error err) :
    (federated_learning cfg run gw).1 = .error err ∧
    (federated_learning cfg run gw).2.commits.length = r ∧
    (federated_learning cfg run gw).2.submissions =
      (List.range (r + 1)).flatMap
        (fun j => cfg.endpoint_ids.map (fun e => (j, e))) := by
  unfold federated_learning
  have h := flLoop_abort cfg run pre post efail err hmode hsplit r 0
    cfg.loops gw hr
    (by intro j hj e he w; simpa using hprev j hj e he w)
    (by intro e he w; simpa using hpre e he w)
    (by intro w; simpa using hfail w)
  refine ⟨h.1, h.2.1, ?_⟩
  rw [h.2.2]
  exact congrArg (List.flatMap (List.range (r + 1)))
    (funext fun j => by simp)

/-- C3 (witness): with endpoints [E1, E2], E1's task failing with a remote
error and E2's succeeding, the one-round run aborts with E1's error, commits
nothing, and both jobs were submitted. -/
theorem C3_first_error_aborts_witness :
    (federated_learning (twoEndpointCfg "average") failRun []).1 =
      .error (.remote "boom") ∧
    (federated_learning (twoEndpointCfg "average") failRun
      []).2.commits.length = 0 ∧
    (federated_learning (twoEndpointCfg "average") failRun
      []).2.submissions = [(0, "E1"), (0, "E2")] := by
  have h := C3_first_error_aborts (twoEndpointCfg "average") failRun []
    [] ["E2"] "E1" (.remote "boom") 0 (Or.inl rfl) rfl (by simp [twoEndpointCfg])
    (by intro j hj; exact absurd hj (by omega))
    (by intro e he; exact absurd he (List.not_mem_nil e))
    (by intro w; simp [failRun])
  refine ⟨h.1, h.2.1, ?_⟩
  rw [h.2.2]
  rfl

/-- C7: for every round count N, valid mode, nonempty endpoint set and a
remote behaviour in which every task succeeds, the run performs the
per-endpoint dispatch fan-out exactly N times (round indices 0..N-1 in
order, endpoints in list order within each round), commits the global model
exactly N times, and returns successfully with the last committed weights
(the initial weights when N = 0). -/
theorem C7_n_rounds (cfg : FLConfig)
    (run : Nat → String → List NFloat → Except FLError TrainResult)
    (gw : List NFloat)
    (hmode : cfg.federated_mode = "average" ∨
      cfg.federated_mode = "weighted_average")
    (heps : cfg.endpoint_ids ≠ [])
    (hok : ∀ i e w, ∃ rv, run i e w = .ok rv) :
    (federated_learning cfg run gw).1 =
      .ok ((federated_learning cfg run gw).2.commits.getLastD gw) ∧
    (federated_learning cfg run gw).2.commits.length = cfg.loops ∧
    (federated_learning cfg run gw).2.submissions =
      (List.range cfg.loops).flatMap
        (fun i => cfg.endpoint_ids.map (fun e => (i, e))) := by
  unfold federated_learning
  have h := flLoop_all_ok cfg run hmode heps hok cfg.loops 0 gw
  refine ⟨h.1, h.2.1, ?_⟩
  rw [h.2.2]
  exact congrArg (List.flatMap (List.range cfg.loops))
    (funext fun j => by simp)

/-- C7 (witness): three rounds over [E1, E2] with every task succeeding
dispatch exactly 3 * 2 jobs in round order and commit exactly 3 times. -/
theorem C7_n_rounds_witness :
    (federated_learning threeRoundCfg demoRun []).1 =
      .ok ((federated_learning threeRoundCfg demoRun
        []).2.commits.getLastD []) ∧
    (federated_learning threeRoundCfg demoRun []).2.commits.length = 3 ∧
    (federated_learning threeRoundCfg demoRun []).2.submissions =
      [(0, "E1"), (0, "E2"), (1, "E1"), (1, "E2"), (2, "E1"), (2, "E2")] := by
  have h := C7_n_rounds threeRoundCfg demoRun [] (Or.inl rfl)
    (by simp [threeRoundCfg]) (fun i e w => ⟨demoRes e, rfl⟩)
  refine ⟨h.1, h.2.1, ?_⟩
  rw [h.2.2]
  rfl

/-- C4: in weighted_average mode, with one round, every task succeeding
with finite rectangular parameters and a nonzero total sample count, the
committed parameters are exactly the per-position weighted mean in which
endpoint `e`'s parameters are multiplied by `e`'s own weight
`samples(e) / total` from `get_edge_weights`. -/
theorem C4_weighted_commit (cfg : FLConfig)
    (run : Nat → String → List NFloat → Except FLError TrainResult)
    (gw : List NFloat) (resf : String → TrainResult)
    (qp : String → List ℚ) (L : Nat)
    (hmode : cfg.federated_mode = "weighted_average")
    (hloops : cfg.loops = 1)
    (hok : ∀ e ∈ cfg.endpoint_ids, run 0 e gw = .ok (resf e))
    (hq : ∀ e ∈ cfg.endpoint_ids,
      (resf e).model_weights = (qp e).map NFloat.num)
    (hL : ∀ e ∈ cfg.endpoint_ids, (qp e).length = L)
    (htot : (cfg.endpoint_ids.map (fun e => (resf e).samples_count)).sum ≠
      0) :
    (federated_learning cfg run gw).1 =
      .ok (weightedMeanFormula cfg.endpoint_ids resf qp L) ∧
    (federated_learning cfg run gw).2.commits =
      [weightedMeanFormula cfg.endpoint_ids resf qp L] := by
  have hagg : aggregate cfg.federated_mode (cfg.endpoint_ids.map resf) =
      .ok (weightedMeanFormula cfg.endpoint_ids resf qp L) := by
    rw [hmode,
      aggregate_weighted_formula cfg.endpoint_ids resf qp L hq hL htot]
    rfl
  rw [federated_one_round cfg run gw resf _ hloops hok hagg]
  exact ⟨rfl, rfl⟩

/-- C4 (witness): sample counts [100, 300] (weights [1/4, 3/4]) and tensor
values [1], [3] commit [1/4 * 1 + 3/4 * 3] = [5/2] = [2.5]. -/
theorem C4_weighted_commit_witness :
    (federated_learning (twoEndpointCfg "weighted_average") demoRun
      []).1 = .ok [NFloat.num (5 / 2)] ∧
    (federated_learning (twoEndpointCfg "weighted_average") demoRun
      []).2.commits = [[NFloat.num (5 / 2)]] := by
  have hcounts : (twoEndpointCfg "weighted_average").endpoint_ids.map
      (fun e => (demoRes e).samples_count) = [100, 300] := by
    simp [demoRes, twoEndpointCfg]
  have h := C4_weighted_commit (twoEndpointCfg "weighted_average") demoRun
    [] demoRes (fun e => [if e = "E1" then 1 else 3]) 1 rfl rfl
    (fun e _ => rfl) (fun e _ => rfl) (fun e _ => rfl)
    (by rw [hcounts]; norm_num [List.sum_cons, List.sum_nil])
  have hval : weightedMeanFormula
      (twoEndpointCfg "weighted_average").endpoint_ids demoRes
      (fun e => [if e = "E1" then 1 else 3]) 1 = [NFloat.num (5 / 2)] := by
    simp [weightedMeanFormula, demoRes, twoEndpointCfg, List.range_succ]
    norm_num
  exact ⟨by rw [h.1, hval], by rw [h.2, hval]⟩

/-- C5: in average mode, with one round, every task succeeding with finite
rectangular parameters and at least one endpoint, the committed parameters
are exactly the per-position arithmetic mean of the endpoints' parameters
(uniform weight one over the number of endpoints). -/
theorem C5_average_commit (cfg : FLConfig)
    (run : Nat → String → List NFloat → Except FLError TrainResult)
    (gw : List NFloat) (resf : String → TrainResult)
    (qp : String → List ℚ) (L : Nat)
    (hmode : cfg.federated_mode = "average")
    (hloops : cfg.loops = 1)
    (hok : ∀ e ∈ cfg.endpoint_ids, run 0 e gw = .ok (resf e))
    (hq : ∀ e ∈ cfg.endpoint_ids,
      (resf e).model_weights = (qp e).map NFloat.num)
    (hL : ∀ e ∈ cfg.endpoint_ids, (qp e).length = L)
    (heps : cfg.endpoint_ids ≠ []) :
    (federated_learning cfg run gw).1 =
      .ok (uniformMeanFormula cfg.endpoint_ids qp L) ∧
    (federated_learning cfg run gw).2.commits =
      [uniformMeanFormula cfg.endpoint_ids qp L] := by
  have hagg : aggregate cfg.federated_mode (cfg.endpoint_ids.map resf) =
      .ok (uniformMeanFormula cfg.endpoint_ids qp L) := by
    rw [hmode,
      aggregate_average_formula cfg.endpoint_ids resf qp L hq hL heps]
    rfl
  rw [federated_one_round cfg run gw resf _ hloops hok hagg]
  exact ⟨rfl, rfl⟩

/-- C5 (witness): two endpoints with tensor values [1] and [3] commit
[(1 + 3) / 2] = [2]. -/
theorem C5_average_commit_witness :
    (federated_learning (twoEndpointCfg "average") demoRun []).1 =
      .ok [NFloat.num 2] ∧
    (federated_learning (twoEndpointCfg "average") demoRun
      []).2.commits = [[NFloat.num 2]] := by
  have h := C5_average_commit (twoEndpointCfg "average") demoRun []
    demoRes (fun e => [if e = "E1" then 1 else 3]) 1 rfl rfl
    (fun e _ => rfl) (fun e _ => rfl) (fun e _ => rfl)
    (by simp [twoEndpointCfg])
  have hval : uniformMeanFormula (twoEndpointCfg "average").endpoint_ids
      (fun e => [if e = "E1" then 1 else 3]) 1 = [NFloat.num 2] := by
    simp [uniformMeanFormula, twoEndpointCfg, List.range_succ]
    norm_num
  exact ⟨by rw [h.1, hval], by rw [h.2, hval]⟩

/-- C8: with endpoints dispatched in the order [e1, e2] in weighted mode,
the committed value pairs e1's parameters with e1's own sample count and
e2's with e2's: position `j` of the commit is
`(c1/(c1+c2)) * q1[j] + (c2/(c1+c2)) * q2[j]`.  (Collection awaits the
task handles in submission order — `collectResults` walks the handle list
— so remote completion order cannot influence this pairing.) -/
theorem C8_submission_order_pairing (cfg : FLConfig)
    (run : Nat → String → List NFloat → Except FLError TrainResult)
    (gw : List NFloat) (e1 e2 : String) (q1 q2 : List ℚ) (c1 c2 : ℚ)
    (L : Nat)
    (hmode : cfg.federated_mode = "weighted_average")
    (hloops : cfg.loops = 1)
    (heps : cfg.endpoint_ids = [e1, e2])
    (hne : e1 ≠ e2)
    (h1 : run 0 e1 gw = .ok ⟨q1.map NFloat.num, c1⟩)
    (h2 : run 0 e2 gw = .ok ⟨q2.map NFloat.num, c2⟩)
    (hL1 : q1.length = L) (hL2 : q2.length = L)
    (htot : c1 + c2 ≠ 0) :
    (federated_learning cfg run gw).2.commits =
      [(List.range L).map (fun j =>
        .num ((c1 / (c1 + c2)) * q1.getD j 0 +
          (c2 / (c1 + c2)) * q2.getD j 0))] ∧
    (federated_learning cfg run gw).1 =
      .ok ((List.range L).map (fun j =>
        .num ((c1 / (c1 + c2)) * q1.getD j 0 +
          (c2 / (c1 + c2)) * q2.getD j 0))) := by
  have hq : ∀ e ∈ [e1, e2],
      ((if e = e2 then (⟨q2.map NFloat.num, c2⟩ : TrainResult)
        else ⟨q1.map NFloat.num, c1⟩) : TrainResult).model_weights =
      ((if e = e2 then q2 else q1) : List ℚ).map NFloat.num := by
    intro e _
    by_cases hc : e = e2 <;> simp [hc]
  have hLb : ∀ e ∈ [e1, e2],
      ((if e = e2 then q2 else q1) : List ℚ).length = L := by
    intro e _
    by_cases hc : e = e2 <;> simp [hc, hL1, hL2]
  have htotb : (([e1, e2].map (fun e =>
      ((if e = e2 then (⟨q2.map NFloat.num, c2⟩ : TrainResult)
        else ⟨q1.map NFloat.num, c1⟩) : TrainResult).samples_count))).sum ≠
      0 := by
    simpa [hne] using htot
  have hagg := aggregate_weighted_formula [e1, e2]
    (fun e => if e = e2 then (⟨q2.map NFloat.num, c2⟩ : TrainResult)
      else ⟨q1.map NFloat.num, c1⟩)
    (fun e => if e = e2 then q2 else q1) L hq hLb htotb
  have hok : ∀ e ∈ cfg.endpoint_ids, run 0 e gw =
      .ok (if e = e2 then (⟨q2.map NFloat.num, c2⟩ : TrainResult)
        else ⟨q1.map NFloat.num, c1⟩) := by
    rw [heps]
    intro e he
    rcases List.mem_cons.mp he with rfl | he2
    · rw [if_neg hne]; exact h1
    · rcases List.mem_cons.mp he2 with rfl | he3
      · rw [if_pos rfl]; exact h2
      · exact absurd he3 (List.not_mem_nil e)
  have hagg2 : aggregate "weighted_average" ([e1, e2].map
      (fun e => if e = e2 then (⟨q2.map NFloat.num, c2⟩ : TrainResult)
        else ⟨q1.map NFloat.num, c1⟩)) =
      .ok (weightedMeanFormula [e1, e2]
        (fun e => if e = e2 then (⟨q2.map NFloat.num, c2⟩ : TrainResult)
          else ⟨q1.map NFloat.num, c1⟩)
        (fun e => if e = e2 then q2 else q1) L) := by
    rw [hagg]
    rfl
  have hfl := federated_one_round cfg run gw _ _ hloops hok
    (by rw [hmode, heps]; exact hagg2)
  have hval : weightedMeanFormula [e1, e2]
      (fun e => if e = e2 then (⟨q2.map NFloat.num, c2⟩ : TrainResult)
        else ⟨q1.map NFloat.num, c1⟩)
      (fun e => if e = e2 then q2 else q1) L =
      (List.range L).map (fun j =>
        NFloat.num ((c1 / (c1 + c2)) * q1.getD j 0 +
          (c2 / (c1 + c2)) * q2.getD j 0)) := by
    unfold weightedMeanFormula
    refine List.map_congr_left (fun j _ => ?_)
    simp [hne]
  rw [hfl, hval]
  exact ⟨rfl, rfl⟩

/-- C8 (witness): endpoints [E1, E2] with E1 training [1] on 100 samples
and E2 training [3] on 300 samples commit [100/400 * 1 + 300/400 * 3] =
[5/2], pairing each parameter set with its own count. -/
theorem C8_submission_order_pairing_witness :
    (federated_learning (twoEndpointCfg "weighted_average") demoRun
      []).2.commits =
      [[NFloat.num (100 / 400 * 1 + 300 / 400 * 3)]] ∧
    (federated_learning (twoEndpointCfg "weighted_average") demoRun
      []).1 = .ok [NFloat.num (100 / 400 * 1 + 300 / 400 * 3)] := by
  have h := C8_submission_order_pairing (twoEndpointCfg "weighted_average")
    demoRun [] "E1" "E2" [1] [3] 100 300 1 rfl rfl rfl (by simp)
    (by simp [demoRun]) (by simp [demoRun]) rfl rfl (by norm_num)
  have hval : (List.range 1).map (fun j =>
      NFloat.num ((100 / (100 + 300)) * ([(1 : ℚ)].getD j 0) +
        (300 / (100 + 300)) * ([(3 : ℚ)].getD j 0))) =
      [NFloat.num (100 / 400 * 1 + 300 / 400 * 3)] := by
    simp [List.range_succ]
    norm_num
  exact ⟨by rw [h.1, hval], by rw [h.2, hval]⟩
